import Mathlib

/-!
Verification of the HTML-article extraction program (`fetch_articles.py`).

The development shallowly embeds the program's core:

* `ArticleParser` with `handle_starttag` / `handle_endtag` / `handle_data` —
  the event-driven tag-state converter (strings are Lean `String`s, which in
  this toolchain are lists of characters, matching Python `str` semantics for
  the ASCII data involved);
* `ArticleParser.get_content` — the per-block cleanup pass plus the four
  emphasis-spacing regex substitutions, realised as executable character-list
  scanners with exact leftmost, non-overlapping `re.sub` semantics;
* `clean_html_content` and `extract_text_fallback` — the regex fallback
  extractor, with `re.findall`/`re.sub` tag machinery realised as fuel-driven
  scanners (fuel is the string length, which bounds the number of scan steps);
* `fetch_article` / `processAll` — assembly of the output records, with the
  fallible retrieval-and-decoding prefix of the Python `try` block embedded as
  an `Except` value (the processing steps after retrieval are total functions
  here, mirroring the converter's never-raising behaviour).
-/

/-- Python `str.isspace` / regex `\s`, restricted to the ASCII range that the
program's data uses. -/
def pyIsSpace (c : Char) : Bool :=
  c = ' ' || c = '\t' || c = '\n' || c = '\r' || c = '\x0b' || c = '\x0c'

/-- Drop trailing whitespace characters (the right half of Python `strip`). -/
def dropTrailWs : List Char → List Char
  | [] => []
  | c :: rest =>
    match dropTrailWs rest with
    | [] => if pyIsSpace c then [] else [c]
    | r => c :: r

/-- Python `str.strip()` on a character list. -/
def stripChars (l : List Char) : List Char :=
  dropTrailWs (l.dropWhile pyIsSpace)

/-- Python `str.strip()` on a string. -/
def pyStrip (s : String) : String :=
  ⟨stripChars s.data⟩

/-- Python `s.split('\n')` on a character list. -/
def splitNlChars : List Char → List (List Char)
  | [] => [[]]
  | '\n' :: rest => [] :: splitNlChars rest
  | c :: rest =>
    match splitNlChars rest with
    | h :: t => (c :: h) :: t
    | [] => [[c]]

/-- Python `s.split('\n\n')` on a character list (leftmost, non-overlapping
occurrences of the two-newline separator). -/
def splitNlNl : List Char → List (List Char)
  | [] => [[]]
  | '\n' :: '\n' :: rest => [] :: splitNlNl rest
  | c :: rest =>
    match splitNlNl rest with
    | h :: t => (c :: h) :: t
    | [] => [[c]]

/-- Python `'\n'.join` on strings. -/
def joinNl : List String → String
  | [] => ""
  | [s] => s
  | s :: rest => s ++ "\n" ++ joinNl rest

/-- Python `'\n'.join` on character lists. -/
def joinNlChars : List (List Char) → List Char
  | [] => []
  | [s] => s
  | s :: rest => s ++ '\n' :: joinNlChars rest

/-- Python `'\n\n'.join` on strings. -/
def joinNlNl : List String → String
  | [] => ""
  | [s] => s
  | s :: rest => s ++ "\n\n" ++ joinNlNl rest

/-- The substitution `re.sub(r' +', ' ', s)`: collapse every run of spaces to
a single space (the run's last space is kept, which is the same thing). -/
def collapseSp : List Char → List Char
  | [] => []
  | [c] => [c]
  | c1 :: c2 :: rest =>
    if c1 = ' ' && c2 = ' ' then collapseSp (c2 :: rest)
    else c1 :: collapseSp (c2 :: rest)

/-- The substitution `re.sub(r'\s+', ' ', s)`: collapse every whitespace run
to a single space character. -/
def collapseWs : List Char → List Char
  | [] => []
  | [c] => if pyIsSpace c then [' '] else [c]
  | c1 :: c2 :: rest =>
    if pyIsSpace c1 then
      if pyIsSpace c2 then collapseWs (c2 :: rest)
      else ' ' :: collapseWs (c2 :: rest)
    else c1 :: collapseWs (c2 :: rest)

/-- The substitution `re.sub(r'(?<!\n)\n(?!\n)', ' ', s)`: replace every
newline that is neither preceded nor followed by another newline with a
space.  The boolean records whether the previous character of the original
string was a newline (the lookbehind inspects the original string). -/
def subSingleNlAux (prevNl : Bool) : List Char → List Char
  | [] => []
  | '\n' :: rest =>
    if prevNl || rest.head? = some '\n' then '\n' :: subSingleNlAux true rest
    else ' ' :: subSingleNlAux true rest
  | c :: rest => c :: subSingleNlAux false rest

/-- Entry point of `re.sub(r'(?<!\n)\n(?!\n)', ' ', s)`. -/
def subSingleNl (l : List Char) : List Char :=
  subSingleNlAux false l

/-- The punctuation class `[.,;:!?)\]]` used by the emphasis cleanup regexes
in `get_content`. -/
def emphCls (c : Char) : Bool :=
  pyIsSpace c || ['.', ',', ';', ':', '!', '?', ')', ']'].contains c

/-- Scanner for `re.sub(r'(\s)\*\s+', r'\1*', s)`.  In skip mode the matched
greedy `\s+` run is being consumed; scanning resumes at the first
non-whitespace character after it.  Every step consumes at least one input
character, so fuel equal to the input length never runs out. -/
def sub1Aux : Nat → Bool → List Char → List Char
  | 0, _, l => l
  | _ + 1, _, [] => []
  | fuel + 1, true, c :: rest =>
    if pyIsSpace c then sub1Aux fuel true rest
    else c :: sub1Aux fuel false rest
  | fuel + 1, false, c :: rest =>
    if pyIsSpace c then
      match rest with
      | '*' :: d :: rest2 =>
        if pyIsSpace d then c :: '*' :: sub1Aux fuel true rest2
        else c :: sub1Aux fuel false rest
      | _ => c :: sub1Aux fuel false rest
    else c :: sub1Aux fuel false rest

/-- The substitution `re.sub(r'(\s)\*\s+', r'\1*', s)`. -/
def sub1 (l : List Char) : List Char :=
  sub1Aux l.length false l

/-- Scanner for `re.sub(r'\s+\*(\s|[.,;:!?)\]])', r'*\1', s)`.  `pending`
holds (reversed) the whitespace run read so far but not yet emitted; a `*`
directly after a non-empty run, followed by a class character, is a match
and the run is deleted. -/
def sub2Aux : Nat → List Char → List Char → List Char
  | 0, pending, l => pending.reverse ++ l
  | _ + 1, pending, [] => pending.reverse
  | fuel + 1, pending, c :: rest =>
    if pyIsSpace c then sub2Aux fuel (c :: pending) rest
    else if c = '*' && !pending.isEmpty then
      match rest with
      | d :: rest2 =>
        if emphCls d then '*' :: d :: sub2Aux fuel [] rest2
        else pending.reverse ++ '*' :: sub2Aux fuel [] rest
      | [] => pending.reverse ++ ['*']
    else pending.reverse ++ c :: sub2Aux fuel [] rest

/-- The substitution `re.sub(r'\s+\*(\s|[.,;:!?)\]])', r'*\1', s)`. -/
def sub2 (l : List Char) : List Char :=
  sub2Aux l.length [] l

/-- Scanner for `re.sub(r'(\s)\*\*\s+', r'\1**', s)`, analogous to `sub1Aux`. -/
def sub3Aux : Nat → Bool → List Char → List Char
  | 0, _, l => l
  | _ + 1, _, [] => []
  | fuel + 1, true, c :: rest =>
    if pyIsSpace c then sub3Aux fuel true rest
    else c :: sub3Aux fuel false rest
  | fuel + 1, false, c :: rest =>
    if pyIsSpace c then
      match rest with
      | '*' :: '*' :: d :: rest2 =>
        if pyIsSpace d then c :: '*' :: '*' :: sub3Aux fuel true rest2
        else c :: sub3Aux fuel false rest
      | _ => c :: sub3Aux fuel false rest
    else c :: sub3Aux fuel false rest

/-- The substitution `re.sub(r'(\s)\*\*\s+', r'\1**', s)`. -/
def sub3 (l : List Char) : List Char :=
  sub3Aux l.length false l

/-- Scanner for `re.sub(r'\s+\*\*(\s|[.,;:!?)\]])', r'**\1', s)`, analogous
to `sub2Aux`. -/
def sub4Aux : Nat → List Char → List Char → List Char
  | 0, pending, l => pending.reverse ++ l
  | _ + 1, pending, [] => pending.reverse
  | fuel + 1, pending, c :: rest =>
    if pyIsSpace c then sub4Aux fuel (c :: pending) rest
    else if c = '*' && !pending.isEmpty then
      match rest with
      | '*' :: d :: rest2 =>
        if emphCls d then '*' :: '*' :: d :: sub4Aux fuel [] rest2
        else pending.reverse ++ '*' :: sub4Aux fuel [] rest
      | _ => pending.reverse ++ '*' :: sub4Aux fuel [] rest
    else pending.reverse ++ c :: sub4Aux fuel [] rest

/-- The substitution `re.sub(r'\s+\*\*(\s|[.,;:!?)\]])', r'**\1', s)`. -/
def sub4 (l : List Char) : List Char :=
  sub4Aux l.length [] l

/-- One line of the `is_list` test in `get_content`: after stripping, the
line starts with `-` or with a digit `1`-`9` followed by `)`. -/
def isListLine (line : List Char) : Bool :=
  match stripChars line with
  | '-' :: _ => true
  | c :: ')' :: _ => ['1', '2', '3', '4', '5', '6', '7', '8', '9'].contains c
  | _ => false

/-- The per-block cleanup of `get_content`: list blocks keep their line
structure (each line stripped, space runs collapsed, empty lines dropped);
other blocks have isolated newlines turned into spaces, space runs
collapsed, and are stripped. -/
def clean_part (part : String) : String :=
  let lines := splitNlChars part.data
  if lines.any isListLine then
    ⟨joinNlChars (((lines.map fun line => collapseSp (stripChars line)).filter
      fun line => !line.isEmpty))⟩
  else
    ⟨stripChars (collapseSp (subSingleNl part.data))⟩

/-- The whole post-processing pass of `get_content`: clean each block, join
with blank lines, then run the four emphasis-spacing substitutions. -/
def cleanup_pass (parts : List String) : String :=
  let content := joinNlNl (parts.map clean_part)
  ⟨sub4 (sub3 (sub2 (sub1 content.data)))⟩

/-- HTML parse events fed to the converter, as produced by Python
`HTMLParser`: start tag with attributes, end tag, and text data. -/
inductive HEvent where
  | start (tag : String) (attrs : List (String × String))
  | stop (tag : String)
  | txt (data : String)
deriving Repr, DecidableEq

/-- Python `dict(attrs).get(key, None)`: the last binding of the key wins. -/
def dictGet (key : String) : List (String × String) → Option String
  | [] => none
  | (a, b) :: rest =>
    match dictGet key rest with
    | some v => some v
    | none => if a = key then some b else none

/-- The mutable state of `ArticleParser`, one field per Python attribute. -/
structure ArticleParser where
  title : String
  author : String
  content_parts : List String
  in_h1 : Bool
  in_h2 : Bool
  in_h3 : Bool
  in_h4 : Bool
  in_h5 : Bool
  in_h6 : Bool
  in_p : Bool
  in_article : Bool
  in_footer : Bool
  in_author_p : Bool
  in_em : Bool
  in_i : Bool
  in_strong : Bool
  in_b : Bool
  in_ul : Bool
  in_ol : Bool
  in_li : Bool
  in_dl : Bool
  in_dt : Bool
  in_dd : Bool
  list_items : List String
  ol_counter : Nat
  current_text : String
  current_p_class : Option String
deriving Repr, DecidableEq

/-- The freshly constructed parser (`ArticleParser.__init__`). -/
def initParser : ArticleParser where
  title := ""
  author := ""
  content_parts := []
  in_h1 := false
  in_h2 := false
  in_h3 := false
  in_h4 := false
  in_h5 := false
  in_h6 := false
  in_p := false
  in_article := false
  in_footer := false
  in_author_p := false
  in_em := false
  in_i := false
  in_strong := false
  in_b := false
  in_ul := false
  in_ol := false
  in_li := false
  in_dl := false
  in_dt := false
  in_dd := false
  list_items := []
  ol_counter := 0
  current_text := ""
  current_p_class := none

/-- Python truthiness guard `self.current_text and not
self.current_text[-1].isspace()`. -/
def endsNonWs (s : String) : Bool :=
  match s.data.getLast? with
  | some c => !pyIsSpace c
  | none => false

/-- The converter's `handle_starttag`.  Python's `if tag == … / elif` chain
over tag names is rendered as a first-match dispatch on the tag string,
which has the same semantics. -/
def handle_starttag (st : ArticleParser) (tag : String)
    (attrs : List (String × String)) : ArticleParser :=
  match tag with
  | "h1" => { st with in_h1 := true }
  | "h2" => { st with in_h2 := true }
  | "h3" => { st with in_h3 := true }
  | "h4" => { st with in_h4 := true }
  | "h5" => { st with in_h5 := true }
  | "h6" => { st with in_h6 := true }
  | "p" =>
    let cls := dictGet "class" attrs
    let st := { st with in_p := true, current_p_class := cls }
    if cls = some "author" then { st with in_author_p := true } else st
  | "article" => { st with in_article := true }
  | "footer" =>
    let st :=
      if pyStrip st.current_text ≠ "" then
        let st :=
          if st.in_p && !st.in_author_p then
            { st with content_parts := st.content_parts ++ [pyStrip st.current_text] }
          else if st.in_dd then
            { st with content_parts := st.content_parts ++ [pyStrip st.current_text] }
          else if st.in_dt then
            { st with content_parts :=
                st.content_parts ++ ["**" ++ pyStrip st.current_text ++ "**"] }
          else st
        { st with current_text := "" }
      else st
    { st with in_footer := true }
  | "ul" => { st with in_ul := true, list_items := [] }
  | "ol" => { st with in_ol := true, ol_counter := 0, list_items := [] }
  | "li" => { st with in_li := true, current_text := "" }
  | "dl" => { st with in_dl := true, list_items := [] }
  | "dt" => { st with in_dt := true, current_text := "" }
  | "dd" => { st with in_dd := true, current_text := "" }
  | "em" | "i" =>
    let st :=
      if (st.in_p || st.in_li || st.in_dt || st.in_dd
            || (st.in_h2 && st.title ≠ "") || st.in_h3 || st.in_h4 || st.in_h5
            || st.in_h6) && !st.in_author_p then
        let ct := if st.current_text ≠ "" && endsNonWs st.current_text
                  then st.current_text ++ " " else st.current_text
        { st with current_text := ct ++ "*" }
      else st
    { st with in_em := tag = "em", in_i := tag = "i" }
  | "strong" | "b" =>
    let st :=
      if (st.in_p || st.in_li || st.in_dd || (st.in_h2 && st.title ≠ "")
            || st.in_h3 || st.in_h4 || st.in_h5 || st.in_h6)
          && !st.in_author_p && !st.in_dt then
        let ct := if st.current_text ≠ "" && endsNonWs st.current_text
                  then st.current_text ++ " " else st.current_text
        { st with current_text := ct ++ "**" }
      else st
    { st with in_strong := tag = "strong", in_b := tag = "b" }
  | _ => st

/-- The converter's `handle_endtag`, dispatching on the tag name like
`handle_starttag`. -/
def handle_endtag (st : ArticleParser) (tag : String) : ArticleParser :=
  match tag with
  | "h1" => { st with in_h1 := false }
  | "h2" =>
    let st := { st with in_h2 := false }
    if st.title ≠ "" && pyStrip st.current_text ≠ "" && !st.in_footer then
      { st with content_parts := st.content_parts ++ ["**" ++ pyStrip st.current_text ++ "**"],
                current_text := "" }
    else st
  | "h3" =>
    let st := { st with in_h3 := false }
    let st :=
      if pyStrip st.current_text ≠ "" && !st.in_footer then
        { st with content_parts := st.content_parts ++ ["**" ++ pyStrip st.current_text ++ "**"] }
      else st
    { st with current_text := "" }
  | "h4" =>
    let st := { st with in_h4 := false }
    let st :=
      if pyStrip st.current_text ≠ "" && !st.in_footer then
        { st with content_parts := st.content_parts ++ ["**" ++ pyStrip st.current_text ++ "**"] }
      else st
    { st with current_text := "" }
  | "h5" =>
    let st := { st with in_h5 := false }
    let st :=
      if pyStrip st.current_text ≠ "" && !st.in_footer then
        { st with content_parts := st.content_parts ++ ["**" ++ pyStrip st.current_text ++ "**"] }
      else st
    { st with current_text := "" }
  | "h6" =>
    let st := { st with in_h6 := false }
    let st :=
      if pyStrip st.current_text ≠ "" && !st.in_footer then
        { st with content_parts := st.content_parts ++ ["**" ++ pyStrip st.current_text ++ "**"] }
      else st
    { st with current_text := "" }
  | "p" =>
    let st := { st with in_p := false }
    let st :=
      if pyStrip st.current_text ≠ "" && !st.in_author_p && !st.in_footer then
        { st with content_parts := st.content_parts ++ [pyStrip st.current_text] }
      else st
    { st with current_text := "", current_p_class := none, in_author_p := false }
  | "article" => { st with in_article := false }
  | "footer" => { st with in_footer := false }
  | "li" =>
    let st := { st with in_li := false }
    let st :=
      if pyStrip st.current_text ≠ "" && !st.in_footer then
        if st.in_ol then
          { st with ol_counter := st.ol_counter + 1,
                    list_items := st.list_items
                      ++ [toString (st.ol_counter + 1) ++ ") " ++ pyStrip st.current_text] }
        else
          { st with list_items := st.list_items ++ ["- " ++ pyStrip st.current_text] }
      else st
    { st with current_text := "" }
  | "ul" =>
    let st := { st with in_ul := false }
    let st :=
      if !st.list_items.isEmpty then
        { st with content_parts := st.content_parts ++ [joinNl st.list_items] }
      else st
    { st with list_items := [] }
  | "ol" =>
    let st := { st with in_ol := false }
    let st :=
      if !st.list_items.isEmpty then
        { st with content_parts := st.content_parts ++ [joinNl st.list_items] }
      else st
    { st with list_items := [], ol_counter := 0 }
  | "dt" =>
    let st := { st with in_dt := false }
    let st :=
      if pyStrip st.current_text ≠ "" && !st.in_footer then
        { st with content_parts := st.content_parts ++ ["**" ++ pyStrip st.current_text ++ "**"] }
      else st
    { st with current_text := "" }
  | "dd" =>
    let st := { st with in_dd := false }
    let st :=
      if pyStrip st.current_text ≠ "" && !st.in_footer then
        { st with content_parts := st.content_parts ++ [pyStrip st.current_text] }
      else st
    { st with current_text := "" }
  | "dl" => { st with in_dl := false }
  | "em" | "i" =>
    let st :=
      if (st.in_p || st.in_li || st.in_dt || st.in_dd
            || (st.in_h2 && st.title ≠ "") || st.in_h3 || st.in_h4 || st.in_h5
            || st.in_h6) && !st.in_author_p then
        { st with current_text := st.current_text ++ "*" }
      else st
    { st with in_em := false, in_i := false }
  | "strong" | "b" =>
    let st :=
      if (st.in_p || st.in_li || st.in_dd || (st.in_h2 && st.title ≠ "")
            || st.in_h3 || st.in_h4 || st.in_h5 || st.in_h6)
          && !st.in_author_p && !st.in_dt then
        { st with current_text := st.current_text ++ "**" }
      else st
    { st with in_strong := false, in_b := false }
  | _ => st

/-- The punctuation set `'.,;:!?)]}'` checked by `handle_data` after a
closing emphasis marker (`\x7d` is the closing curly brace). -/
def dataPunct : List Char :=
  ['.', ',', ';', ':', '!', '?', ')', ']', '\x7d']

/-- The converter's `handle_data`. -/
def handle_data (st : ArticleParser) (data : String) : ArticleParser :=
  let text := pyStrip data
  if text = "" then
    if (st.in_p && !st.in_author_p) || st.in_li || st.in_dt || st.in_dd
        || (st.in_h2 && st.title ≠ "") || st.in_h3 || st.in_h4 || st.in_h5
        || st.in_h6 then
      { st with current_text := st.current_text ++ data }
    else st
  else if st.in_h1 && st.title = "" then
    { st with title := text }
  else if st.in_h2 then
    if st.title = "" then { st with title := text }
    else if !st.in_footer then { st with current_text := st.current_text ++ data }
    else st
  else if st.in_author_p then
    if List.isPrefixOf ['b', 'y', ' '] (text.data.map Char.toLower) then
      { st with author := ⟨stripChars (text.data.drop 3)⟩ }
    else { st with author := text }
  else if (st.in_p || st.in_li || st.in_dt || st.in_dd
        || (st.in_h2 && st.title ≠ "") || st.in_h3 || st.in_h4 || st.in_h5
        || st.in_h6) && !st.in_footer then
    let needSp :=
      match st.current_text.data.getLast?, data.data with
      | some '*', d :: _ => !pyIsSpace d && !dataPunct.contains d
      | _, _ => false
    let ct := if needSp then st.current_text ++ " " else st.current_text
    { st with current_text := ct ++ data }
  else st

/-- Dispatch one parse event to the corresponding handler. -/
def handle_event (st : ArticleParser) : HEvent → ArticleParser
  | HEvent.start tag attrs => handle_starttag st tag attrs
  | HEvent.stop tag => handle_endtag st tag
  | HEvent.txt d => handle_data st d

/-- Feed a list of parse events to a parser state. -/
def feedEvents (st : ArticleParser) (evs : List HEvent) : ArticleParser :=
  evs.foldl handle_event st

/-- Feed a list of parse events to a fresh parser (`parser.feed(html)`). -/
def parseEvents (evs : List HEvent) : ArticleParser :=
  feedEvents initParser evs

/-- The converter's `get_content`. -/
def ArticleParser.get_content (st : ArticleParser) : String :=
  cleanup_pass st.content_parts

/-- Case-insensitive literal prefix test (regex `re.IGNORECASE` on an ASCII
literal pattern, the pattern being given in lowercase). -/
def ciStarts (pat : List Char) (l : List Char) : Bool :=
  decide ((l.take pat.length).map Char.toLower = pat)

/-- Case-sensitive literal prefix test. -/
def litStarts (pat : List Char) (l : List Char) : Bool :=
  decide (l.take pat.length = pat)

/-- Literal prefix test selecting between the two above. -/
def tagStarts (ci : Bool) (pat : List Char) (l : List Char) : Bool :=
  if ci then ciStarts pat l else litStarts pat l

/-- Match the pattern `<name[^>]*>` at the head of `l`; on success return the
input after the closing `>`. -/
def matchOpenTag (ci : Bool) (name : List Char) (l : List Char) : Option (List Char) :=
  if tagStarts ci ('<' :: name) l then
    match (l.drop (name.length + 1)).dropWhile (fun c => c != '>') with
    | '>' :: r => some r
    | _ => none
  else none

/-- The literal closing tag `</name>`. -/
def closeTagLit (name : List Char) : List Char :=
  '<' :: '/' :: name ++ ['>']

/-- Split `l` at the first occurrence of the literal pattern `pat`; on
success return the part before the occurrence and the part after it (the
non-greedy `(.*?)pat` idiom). -/
def splitAtFirst (ci : Bool) (pat : List Char) : List Char → Option (List Char × List Char)
  | [] => none
  | c :: rest =>
    if tagStarts ci pat (c :: rest) then some ([], (c :: rest).drop pat.length)
    else
      match splitAtFirst ci pat rest with
      | some (b, r) => some (c :: b, r)
      | none => none

/-- Scanner for `re.sub(pred + r'<name[^>]*>', repl, s)` where the pattern
captures one character satisfying `pred` before the tag (the emphasis-tag
substitutions of `clean_html_content`; case-insensitive).  Fuel equal to the
input length bounds the number of scan steps. -/
def subOpenTag (pred : Char → Bool) (name : List Char) (repl : List Char) :
    Nat → List Char → List Char
  | _, [] => []
  | 0, l => l
  | fuel + 1, c :: rest =>
    if pred c then
      match matchOpenTag true name rest with
      | some r => c :: (repl ++ subOpenTag pred name repl fuel r)
      | none => c :: subOpenTag pred name repl fuel rest
    else c :: subOpenTag pred name repl fuel rest

/-- Scanner for `re.sub(r'</name>' + pred, repl, s)` where the pattern
captures one character satisfying `pred` after the closing tag
(case-insensitive). -/
def subCloseTag (name : List Char) (repl : List Char) (pred : Char → Bool) :
    Nat → List Char → List Char
  | _, [] => []
  | 0, l => l
  | fuel + 1, c :: rest =>
    if ciStarts (closeTagLit name) (c :: rest) then
      match (c :: rest).drop (closeTagLit name).length with
      | d :: r2 =>
        if pred d then repl ++ d :: subCloseTag name repl pred fuel r2
        else c :: subCloseTag name repl pred fuel rest
      | [] => c :: subCloseTag name repl pred fuel rest
    else c :: subCloseTag name repl pred fuel rest

/-- Scanner for `re.sub(r'<[^>]+>', '', s)`: delete every bracketed span
with a non-empty body. -/
def stripTags : Nat → List Char → List Char
  | _, [] => []
  | 0, l => l
  | fuel + 1, c :: rest =>
    if c = '<' then
      match rest with
      | d :: _ =>
        if d = '>' then c :: stripTags fuel rest
        else
          match rest.dropWhile (fun x => x != '>') with
          | '>' :: r => stripTags fuel r
          | _ => c :: stripTags fuel rest
      | [] => [c]
    else c :: stripTags fuel rest

/-- Scanner for `re.sub(r'<name[^>]*>.*?</name>', '', s, flags=DOTALL |
IGNORECASE)`: delete whole tagged spans (used for script and style). -/
def removeSpans (name : List Char) : Nat → List Char → List Char
  | _, [] => []
  | 0, l => l
  | fuel + 1, c :: rest =>
    match matchOpenTag true name (c :: rest) with
    | some r =>
      match splitAtFirst true (closeTagLit name) r with
      | some (_, rest2) => removeSpans name fuel rest2
      | none => c :: removeSpans name fuel rest
    | none => c :: removeSpans name fuel rest

/-- Scanner for `re.findall(r'<name[^>]*>(.*?)</name>', s, flags=DOTALL)`:
collect the bodies of all matched spans, leftmost and non-overlapping. -/
def findBodies (ci : Bool) (name : List Char) : Nat → List Char → List (List Char)
  | _, [] => []
  | 0, _ => []
  | fuel + 1, c :: rest =>
    match matchOpenTag ci name (c :: rest) with
    | some r =>
      match splitAtFirst ci (closeTagLit name) r with
      | some (body, rest2) => body :: findBodies ci name fuel rest2
      | none => findBodies ci name fuel rest
    | none => findBodies ci name fuel rest

/-- Python `s.replace('&lt;', '<')` (leftmost, non-overlapping). -/
def replaceLt : List Char → List Char
  | '&' :: 'l' :: 't' :: ';' :: rest => '<' :: replaceLt rest
  | c :: rest => c :: replaceLt rest
  | [] => []

/-- Python `s.replace('&gt;', '>')`. -/
def replaceGt : List Char → List Char
  | '&' :: 'g' :: 't' :: ';' :: rest => '>' :: replaceGt rest
  | c :: rest => c :: replaceGt rest
  | [] => []

/-- Python `s.replace('&amp;', '&')`. -/
def replaceAmp : List Char → List Char
  | '&' :: 'a' :: 'm' :: 'p' :: ';' :: rest => '&' :: replaceAmp rest
  | c :: rest => c :: replaceAmp rest
  | [] => []

/-- Python `s.replace('&quot;', '\"')`. -/
def replaceQuot : List Char → List Char
  | '&' :: 'q' :: 'u' :: 'o' :: 't' :: ';' :: rest => '"' :: replaceQuot rest
  | c :: rest => c :: replaceQuot rest
  | [] => []

/-- Python `s.replace('&#39;', \"'\")`. -/
def replaceApos : List Char → List Char
  | '&' :: '#' :: '3' :: '9' :: ';' :: rest => '\'' :: replaceApos rest
  | c :: rest => c :: replaceApos rest
  | [] => []

/-- The fixed entity-decoding chain of `clean_html_content`, in source
order: `&lt;`, `&gt;`, `&amp;`, `&quot;`, `&#39;`. -/
def decodeEntities (l : List Char) : List Char :=
  replaceApos (replaceQuot (replaceAmp (replaceGt (replaceLt l))))

/-- A character that is not whitespace (regex `\S`). -/
def nonWs (c : Char) : Bool := !pyIsSpace c

/-- The fallback extractor's per-capture cleaner `clean_html_content`:
sixteen emphasis-tag substitutions (em, i, strong, b; open and close;
non-space and space boundary variants, in source order), then strip all
remaining tags, then decode the five fixed entities. -/
def clean_html_content (content : String) : String :=
  let l := content.data
  let l := subOpenTag nonWs ['e', 'm'] [' ', '*'] l.length l
  let l := subCloseTag ['e', 'm'] ['*', ' '] nonWs l.length l
  let l := subOpenTag pyIsSpace ['e', 'm'] ['*'] l.length l
  let l := subCloseTag ['e', 'm'] ['*'] pyIsSpace l.length l
  let l := subOpenTag nonWs ['i'] [' ', '*'] l.length l
  let l := subCloseTag ['i'] ['*', ' '] nonWs l.length l
  let l := subOpenTag pyIsSpace ['i'] ['*'] l.length l
  let l := subCloseTag ['i'] ['*'] pyIsSpace l.length l
  let l := subOpenTag nonWs ['s', 't', 'r', 'o', 'n', 'g'] [' ', '*', '*'] l.length l
  let l := subCloseTag ['s', 't', 'r', 'o', 'n', 'g'] ['*', '*', ' '] nonWs l.length l
  let l := subOpenTag pyIsSpace ['s', 't', 'r', 'o', 'n', 'g'] ['*', '*'] l.length l
  let l := subCloseTag ['s', 't', 'r', 'o', 'n', 'g'] ['*', '*'] pyIsSpace l.length l
  let l := subOpenTag nonWs ['b'] [' ', '*', '*'] l.length l
  let l := subCloseTag ['b'] ['*', '*', ' '] nonWs l.length l
  let l := subOpenTag pyIsSpace ['b'] ['*', '*'] l.length l
  let l := subCloseTag ['b'] ['*', '*'] pyIsSpace l.length l
  let l := stripTags l.length l
  ⟨decodeEntities l⟩

/-- The fallback extractor `extract_text_fallback`: strip script and style
spans, independently collect paragraph, heading, and list bodies, clean
each, and emit paragraphs, then h2 (skipping the first), h3 to h6, then
unordered and ordered lists, joined with blank lines. -/
def extract_text_fallback (html : String) : String :=
  let l := removeSpans ['s', 'c', 'r', 'i', 'p', 't'] html.data.length html.data
  let l := removeSpans ['s', 't', 'y', 'l', 'e'] l.length l
  let paragraphs := findBodies false ['p'] l.length l
  let h2s := findBodies true ['h', '2'] l.length l
  let h3s := findBodies true ['h', '3'] l.length l
  let h4s := findBodies true ['h', '4'] l.length l
  let h5s := findBodies true ['h', '5'] l.length l
  let h6s := findBodies true ['h', '6'] l.length l
  let uls := findBodies true ['u', 'l'] l.length l
  let ols := findBodies true ['o', 'l'] l.length l
  let pParts := (paragraphs.map fun b =>
      (⟨stripChars (collapseWs (subSingleNl (clean_html_content ⟨b⟩).data))⟩ : String)).filter
    fun t => t ≠ ""
  let headingOf := fun (b : List Char) =>
    (⟨stripChars (collapseWs (clean_html_content ⟨b⟩).data)⟩ : String)
  let h2Parts := (((h2s.drop 1).map headingOf).filter fun t => t ≠ "").map
    fun t => "**" ++ t ++ "**"
  let h3Parts := ((h3s.map headingOf).filter fun t => t ≠ "").map fun t => "**" ++ t ++ "**"
  let h4Parts := ((h4s.map headingOf).filter fun t => t ≠ "").map fun t => "**" ++ t ++ "**"
  let h5Parts := ((h5s.map headingOf).filter fun t => t ≠ "").map fun t => "**" ++ t ++ "**"
  let h6Parts := ((h6s.map headingOf).filter fun t => t ≠ "").map fun t => "**" ++ t ++ "**"
  let ulBlocks := ((uls.map fun ul =>
      let items := findBodies true ['l', 'i'] ul.length ul
      ((items.map headingOf).filter fun t => t ≠ "").map fun t => "- " ++ t).filter
    fun items => items ≠ []).map joinNl
  let olBlocks := ((ols.map fun ol =>
      let items := findBodies true ['l', 'i'] ol.length ol
      (((items.map headingOf).enum.filter fun it => it.2 ≠ "").map
        fun it => toString (it.1 + 1) ++ ") " ++ it.2)).filter
    fun items => items ≠ []).map joinNl
  joinNlNl (pParts ++ h2Parts ++ h3Parts ++ h4Parts ++ h5Parts ++ h6Parts
    ++ ulBlocks ++ olBlocks)

/-- One output record: title, author, content. -/
structure ArticleRecord where
  title : String
  author : String
  content : String
deriving Repr, DecidableEq

/-- The per-document driver `fetch_article`.  The fallible prefix of its
`try` block — issuing the request, reading and UTF-8-decoding the response,
and tokenizing it into parse events — is embedded as an `Except` value: an
`Except.error` carries the message of the exception raised there.  The
processing after that point is total, mirroring the converter's
never-raising behaviour; the `except` branch builds the placeholder
record. -/
def fetch_article (filename : String)
    (fetched : Except String (List HEvent × String)) : ArticleRecord :=
  match fetched with
  | Except.ok (events, html) =>
    let p := parseEvents events
    let content := p.get_content
    let content := if content = "" then extract_text_fallback html else content
    let title := ⟨replaceAmp (replaceGt (replaceLt p.title.data))⟩
    { title := title, author := p.author, content := content }
  | Except.error e =>
    { title := "Error: " ++ filename,
      author := "Unknown",
      content := "Failed to fetch article: " ++ e }

/-- The document loop of `main`: every document is processed by
`fetch_article` and contributes exactly one record, in input order. -/
def processAll (docs : List (String × Except String (List HEvent × String))) :
    List ArticleRecord :=
  docs.map fun d => fetch_article d.1 d.2

/-- Event stream of the minimal well-formed document
`<h1>Foo</h1><p class="author">By Bar</p><p>Hello.</p>`. -/
def minimalDocEvents : List HEvent :=
  [HEvent.start "h1" [], HEvent.txt "Foo", HEvent.stop "h1",
   HEvent.start "p" [("class", "author")], HEvent.txt "By Bar", HEvent.stop "p",
   HEvent.start "p" [], HEvent.txt "Hello.", HEvent.stop "p"]

/-- Event stream of the markup `<p>hello <em>world</em>!</p>`, exactly as
Python `HTMLParser` reports it. -/
def emphasisEvents : List HEvent :=
  [HEvent.start "p" [], HEvent.txt "hello ", HEvent.start "em" [],
   HEvent.txt "world", HEvent.stop "em", HEvent.txt "!", HEvent.stop "p"]

/-- Event stream of `<footer><h1>Hidden</h1><p class="author">By X</p></footer>`. -/
def footerMaskEvents : List HEvent :=
  [HEvent.start "footer" [], HEvent.start "h1" [], HEvent.txt "Hidden",
   HEvent.stop "h1", HEvent.start "p" [("class", "author")], HEvent.txt "By X",
   HEvent.stop "p", HEvent.stop "footer"]

/-- Event stream of `<p>a<h3>b</h3>c</p>`: a heading nested in an open
paragraph. -/
def nestedHeadingEvents : List HEvent :=
  [HEvent.start "p" [], HEvent.txt "a", HEvent.start "h3" [], HEvent.txt "b",
   HEvent.stop "h3", HEvent.txt "c", HEvent.stop "p"]

/-- Event stream of a paragraph whose text carries an internal
whitespace-only line between blank lines. -/
def blankSegmentEvents : List HEvent :=
  [HEvent.start "p" [], HEvent.txt "a\n\n \n\nb", HEvent.stop "p"]

/-- The three events of one list item `<li>t</li>` repeated over a list of
item texts. -/
def itemsEvents : List String → List HEvent
  | [] => []
  | t :: ts => HEvent.start "li" [] :: HEvent.txt t :: HEvent.stop "li" :: itemsEvents ts

/-- Event stream of an ordered list with the given item texts. -/
def olEvents (ts : List String) : List HEvent :=
  HEvent.start "ol" [] :: itemsEvents ts ++ [HEvent.stop "ol"]

/-- Event stream of an unordered list with the given item texts. -/
def ulEvents (ts : List String) : List HEvent :=
  HEvent.start "ul" [] :: itemsEvents ts ++ [HEvent.stop "ul"]

/-- The rendered ordered-list items, numbered consecutively starting from
counter value `k` (the counter is `0` right after the list opens). -/
def olItems : Nat → List String → List String
  | _, [] => []
  | k, t :: ts => (toString (k + 1) ++ ") " ++ pyStrip t) :: olItems (k + 1) ts

/-- The rendered unordered-list items. -/
def ulItems (ts : List String) : List String :=
  ts.map fun t => "- " ++ pyStrip t

/-- Either the list is empty or its first character is not whitespace. -/
def headOkWs : List Char → Bool
  | [] => true
  | c :: _ => !pyIsSpace c

/-- Either the list is empty or its last character is not whitespace. -/
def lastOkWs : List Char → Bool
  | [] => true
  | [c] => !pyIsSpace c
  | _ :: c :: rest => lastOkWs (c :: rest)

/-- Invariant of the converter state: every finalized content block and
every pending list item is non-empty after stripping. -/
def PartsOk (st : ArticleParser) : Prop :=
  (∀ p ∈ st.content_parts, pyStrip p ≠ "") ∧ ∀ p ∈ st.list_items, pyStrip p ≠ ""

/-- C1: for the well-formed minimal document with heading-1 `"Foo"`, author
paragraph `"By Bar"`, and content paragraph `"Hello."`, the assembled record
(title and author from the parser, content from `get_content`) equals
`{title := "Foo", author := "Bar", content := "Hello."}` — for any filename
and any raw text (the fallback is not consulted since the content is
non-empty). -/
theorem minimal_document_end_to_end (fn raw : String) :
    fetch_article fn (Except.ok (minimalDocEvents, raw)) =
      { title := "Foo", author := "Bar", content := "Hello." } := by
  rfl

/-- C5: the converter applied to the event stream of
`<p>hello <em>world</em>!</p>` yields, after the `get_content` cleanup pass,
exactly `"hello *world*!"`: no space between the emphasis delimiter and the
word, and no stray space before the exclamation mark. -/
theorem emphasis_roundtrip_content :
    (parseEvents emphasisEvents).get_content = "hello *world*!" := by
  decide

/-- C2 counterexample: the claim says footer text contributes to neither
title nor author nor content.  But `handle_data` checks `in_footer` only on
its content branches: an `h1` inside a footer still sets the title and an
author-class paragraph inside a footer still sets the author. -/
theorem footer_text_sets_title_and_author :
    (parseEvents footerMaskEvents).title = "Hidden" ∧
      (parseEvents footerMaskEvents).author = "X" := by
  decide

/-- C7 counterexample: the claim says the ampersand entity is decoded after
all the others, so that `&amp;quot;` decodes to the literal text `&quot;`.
In the code `&amp;` is decoded third — before `&quot;` and `&#39;` — so
`&amp;quot;` double-decodes to a double-quote character. -/
theorem amp_entity_not_decoded_last :
    clean_html_content "&amp;quot;" ≠ "&quot;" := by
  decide

/-- C9 counterexample: the claim says text buffered while one block element
is open never appears inside a block emitted for a different block element.
For `<p>a<h3>b</h3>c</p>` the text `"a"` is buffered while only the
paragraph is open, yet the block emitted at the `h3` close is `"**ab**"`,
which contains it (and the later paragraph block `"c"` no longer does). -/
theorem buffered_text_crosses_block_boundary :
    (parseEvents nestedHeadingEvents).content_parts = ["**ab**", "c"] := by
  decide

/-- C10 counterexample: the claim concludes that the content string returned
by `get_content` has no empty or whitespace-only segment between its
double-newline separators.  A paragraph whose raw text is
`"a\n\n \n\nb"` survives the cleanup unchanged (no newline in it is
isolated), and the resulting content splits on `"\n\n"` into a
whitespace-only middle segment. -/
theorem content_whitespace_only_segment :
    (parseEvents blankSegmentEvents).get_content = "a\n\n \n\nb" ∧
      ((splitNlNl (parseEvents blankSegmentEvents).get_content.data).any
        fun seg => (stripChars seg).isEmpty) = true := by
  decide

/-- C8: an exception raised while retrieving, decoding, or tokenizing a
document is not propagated: `fetch_article` returns the placeholder record
carrying the failure message, and the document loop still produces exactly
one record per input, so one document's failure never aborts the rest.  (In
this embedding the fallible retrieval prefix of the `try` block is the
`Except` argument; the processing that follows it is total, mirroring the
converter's never-raising design.) -/
theorem fetch_article_error_placeholder :
    (∀ fn e : String,
      fetch_article fn (Except.error e) =
        { title := "Error: " ++ fn, author := "Unknown",
          content := "Failed to fetch article: " ++ e }) ∧
      ∀ docs, (processAll docs).length = docs.length := by
  exact ⟨fun fn e => rfl, fun docs => List.length_map docs _⟩


theorem data_append (a b : String) : (a ++ b).data = a.data ++ b.data := rfl

theorem dropTrailWs_eq_nil {l : List Char} (h : dropTrailWs l = []) :
    ∀ c ∈ l, pyIsSpace c := by
  induction l with
  | nil => simp
  | cons d rest ih =>
    rw [dropTrailWs] at h
    rcases hrest : dropTrailWs rest with _ | ⟨e, t⟩
    · rw [hrest] at h
      intro c hc
      rcases List.mem_cons.mp hc with rfl | hc
      · by_contra hns
        rw [if_neg (by simpa using hns)] at h
        simp at h
      · exact ih hrest c hc
    · simp [hrest] at h

theorem dropTrailWs_eq_nil_of_all {l : List Char} (h : ∀ c ∈ l, pyIsSpace c) :
    dropTrailWs l = [] := by
  induction l with
  | nil => rfl
  | cons d rest ih =>
    rw [dropTrailWs, ih fun c hc => h c (List.mem_cons_of_mem d hc)]
    simp [h d (List.mem_cons_self d rest)]

theorem stripChars_eq_nil_iff {l : List Char} :
    stripChars l = [] ↔ ∀ c ∈ l, pyIsSpace c := by
  constructor
  · intro h c hc
    by_contra hns
    have hdw : l.dropWhile pyIsSpace ≠ [] := by
      intro hnil
      exact hns (List.dropWhile_eq_nil_iff.mp hnil c hc)
    have hall := dropTrailWs_eq_nil h
    rcases hd : l.dropWhile pyIsSpace with _ | ⟨e, t⟩
    · exact hdw hd
    · have he : ¬ (pyIsSpace e = true) := by
        have := List.dropWhile_get_zero_not pyIsSpace l (by rw [hd]; simp)
        simpa [hd] using this
      exact he (hall e (by rw [hd]; exact List.mem_cons_self e t))
  · intro h
    exact dropTrailWs_eq_nil_of_all fun c hc =>
      h c ((List.dropWhile_sublist pyIsSpace).mem hc)

theorem stripChars_ne_nil_of_mem {c : Char} {l : List Char} (hc : c ∈ l)
    (hns : ¬ pyIsSpace c = true) : stripChars l ≠ [] := by
  intro h
  exact hns (stripChars_eq_nil_iff.mp h c hc)

theorem dropWhile_headOkWs (l : List Char) : headOkWs (l.dropWhile pyIsSpace) = true := by
  induction l with
  | nil => rfl
  | cons c rest ih =>
    by_cases hc : pyIsSpace c
    · rw [List.dropWhile_cons_of_pos hc]
      exact ih
    · rw [List.dropWhile_cons_of_neg hc]
      simpa [headOkWs] using hc

theorem dropTrailWs_headOkWs {l : List Char} (h : headOkWs l = true) :
    headOkWs (dropTrailWs l) = true := by
  cases l with
  | nil => rfl
  | cons c rest =>
    rw [dropTrailWs]
    rcases dropTrailWs rest with _ | ⟨e, t⟩
    · by_cases hc : pyIsSpace c
      · rw [if_pos hc]
        rfl
      · rw [if_neg hc]
        simpa [headOkWs] using hc
    · simpa [headOkWs] using h

theorem stripChars_headOkWs (l : List Char) : headOkWs (stripChars l) = true :=
  dropTrailWs_headOkWs (dropWhile_headOkWs l)

theorem dropTrailWs_lastOkWs (l : List Char) : lastOkWs (dropTrailWs l) = true := by
  induction l with
  | nil => rfl
  | cons c rest ih =>
    rw [dropTrailWs]
    rcases hrest : dropTrailWs rest with _ | ⟨e, t⟩
    · by_cases hc : pyIsSpace c
      · rw [if_pos hc]
        rfl
      · rw [if_neg hc]
        simpa [lastOkWs] using hc
    · rw [hrest] at ih
      simpa [lastOkWs] using ih

theorem stripChars_lastOkWs (l : List Char) : lastOkWs (stripChars l) = true :=
  dropTrailWs_lastOkWs _

theorem dropWhile_eq_self_of_headOkWs {l : List Char} (h : headOkWs l = true) :
    l.dropWhile pyIsSpace = l := by
  cases l with
  | nil => rfl
  | cons c rest =>
    have hc : ¬ pyIsSpace c = true := by simpa [headOkWs] using h
    exact List.dropWhile_cons_of_neg hc

theorem dropTrailWs_eq_self_of_lastOkWs {l : List Char} (h : lastOkWs l = true) :
    dropTrailWs l = l := by
  induction l with
  | nil => rfl
  | cons c rest ih =>
    cases rest with
    | nil =>
      have hc : ¬ pyIsSpace c = true := by simpa [lastOkWs] using h
      simp [dropTrailWs, hc]
    | cons e t =>
      have hrest : dropTrailWs (e :: t) = e :: t := ih (by simpa [lastOkWs] using h)
      rw [dropTrailWs, hrest]

theorem stripChars_eq_self {l : List Char} (hh : headOkWs l = true)
    (hl : lastOkWs l = true) : stripChars l = l := by
  rw [stripChars, dropWhile_eq_self_of_headOkWs hh, dropTrailWs_eq_self_of_lastOkWs hl]

theorem stripChars_idem (l : List Char) : stripChars (stripChars l) = stripChars l :=
  stripChars_eq_self (stripChars_headOkWs l) (stripChars_lastOkWs l)

theorem toLower_ne_lt : ∀ d : Char, d ≠ '<' → Char.toLower d ≠ '<' := by
  intro d h hcon
  unfold Char.toLower at hcon
  dsimp only at hcon
  by_cases hc : d.toNat ≥ 65 ∧ d.toNat ≤ 90
  · rw [if_pos hc] at hcon
    have hval := congrArg Char.val hcon
    unfold Char.ofNat at hval
    rw [dif_pos (by simp [Nat.isValidChar, UInt32.isValidChar]; omega)] at hval
    rw [dif_pos (by simp [Nat.isValidChar])] at hval
    simp [Char.ofNatAux] at hval
    have hbits := congrArg (fun u : UInt32 => u.toBitVec.toNat) hval
    simp at hbits
    omega
  · rw [if_neg hc] at hcon
    exact h hcon

theorem matchOpenTag_none (ci : Bool) (name : List Char) {l : List Char}
    (h : ∀ c ∈ l, c ≠ '<') : matchOpenTag ci name l = none := by
  have hfalse : tagStarts ci ('<' :: name) l = false := by
    cases l with
    | nil =>
      cases ci <;> simp [tagStarts, ciStarts, litStarts]
    | cons d rest =>
      have hd : d ≠ '<' := h d (List.mem_cons_self d rest)
      cases ci
      · simp [tagStarts, litStarts, List.take_succ_cons]
        intro hcon
        exact absurd hcon hd
      · simp [tagStarts, ciStarts, List.take_succ_cons]
        intro hcon
        exact absurd hcon (toLower_ne_lt d hd)
  rw [matchOpenTag, hfalse]
  simp

theorem subOpenTag_id (pred : Char → Bool) (name repl : List Char) {l : List Char}
    (h : ∀ c ∈ l, c ≠ '<') : ∀ fuel, subOpenTag pred name repl fuel l = l := by
  induction l with
  | nil => intro fuel; cases fuel <;> rfl
  | cons c rest ih =>
    intro fuel
    have hrest : ∀ x ∈ rest, x ≠ '<' := fun x hx => h x (List.mem_cons_of_mem c hx)
    cases fuel with
    | zero => rfl
    | succ fuel =>
      rw [subOpenTag.eq_def]
      dsimp only
      rw [matchOpenTag_none true name hrest]
      by_cases hp : pred c
      · rw [if_pos hp]
        dsimp only
        rw [ih hrest fuel]
      · rw [if_neg hp, ih hrest fuel]

theorem subCloseTag_id (name repl : List Char) (pred : Char → Bool) {l : List Char}
    (h : ∀ c ∈ l, c ≠ '<') : ∀ fuel, subCloseTag name repl pred fuel l = l := by
  induction l with
  | nil => intro fuel; cases fuel <;> rfl
  | cons c rest ih =>
    intro fuel
    have hrest : ∀ x ∈ rest, x ≠ '<' := fun x hx => h x (List.mem_cons_of_mem c hx)
    have hc : c ≠ '<' := h c (List.mem_cons_self c rest)
    cases fuel with
    | zero => rfl
    | succ fuel =>
      rw [subCloseTag.eq_def]
      dsimp only
      have hfalse : ciStarts (closeTagLit name) (c :: rest) = false := by
        simp [ciStarts, closeTagLit, List.take_succ_cons]
        intro hcon
        exact absurd hcon (toLower_ne_lt c hc)
      rw [hfalse, if_neg (by simp), ih hrest fuel]

theorem stripTags_id {l : List Char} (h : ∀ c ∈ l, c ≠ '<') :
    ∀ fuel, stripTags fuel l = l := by
  induction l with
  | nil => intro fuel; cases fuel <;> rfl
  | cons c rest ih =>
    intro fuel
    have hrest : ∀ x ∈ rest, x ≠ '<' := fun x hx => h x (List.mem_cons_of_mem c hx)
    have hc : c ≠ '<' := h c (List.mem_cons_self c rest)
    cases fuel with
    | zero => rfl
    | succ fuel =>
      rw [stripTags.eq_def]
      dsimp only
      rw [if_neg (by simpa using hc), ih hrest fuel]

theorem clean_html_content_plain {s : String} (h : ∀ c ∈ s.data, c ≠ '<') :
    clean_html_content s = ⟨decodeEntities s.data⟩ := by
  unfold clean_html_content
  dsimp only
  rw [subOpenTag_id _ _ _ h, subCloseTag_id _ _ _ h, subOpenTag_id _ _ _ h,
    subCloseTag_id _ _ _ h, subOpenTag_id _ _ _ h, subCloseTag_id _ _ _ h,
    subOpenTag_id _ _ _ h, subCloseTag_id _ _ _ h, subOpenTag_id _ _ _ h,
    subCloseTag_id _ _ _ h, subOpenTag_id _ _ _ h, subCloseTag_id _ _ _ h,
    subOpenTag_id _ _ _ h, subCloseTag_id _ _ _ h, subOpenTag_id _ _ _ h,
    subCloseTag_id _ _ _ h, stripTags_id h]

/-- C7 amended: in the fallback cleaner, after emphasis conversion all
remaining tags are stripped and then exactly the five entities are decoded
in the source order `&lt;`, `&gt;`, `&amp;`, `&quot;`, `&#39;` (on markup-free
text the cleaner is exactly this decoding chain).  The ampersand entity is
decoded third — before the quote entities — so double-decoding occurs:
`&amp;quot;` becomes a double-quote character, while `&amp;lt;` still
becomes the literal text `&lt;`. -/
theorem entity_decode_order_amp_third :
    (∀ s : String, (∀ c ∈ s.data, c ≠ '<') →
        clean_html_content s = ⟨decodeEntities s.data⟩) ∧
      clean_html_content "&amp;quot;" = "\"" ∧
      clean_html_content "&amp;lt;" = "&lt;" ∧
      clean_html_content "<span>x</span> &lt;&gt;&amp;&quot;&#39;" = "x <>&\"'" := by
  exact ⟨fun s h => clean_html_content_plain h, by decide, by decide, by decide⟩

/-- Witness for the amended C7 theorem at a concrete markup-free string. -/
theorem entity_decode_order_amp_third_witness :
    (∀ c ∈ ("a &amp;quot; b" : String).data, c ≠ '<') ∧
      clean_html_content "a &amp;quot; b" =
        ⟨decodeEntities ("a &amp;quot; b" : String).data⟩ :=
  ⟨by decide, entity_decode_order_amp_third.1 "a &amp;quot; b" (by decide)⟩

/-- C2 amended: non-blank text data arriving while inside a footer changes
neither the finalized blocks, nor the pending list items, nor the text
buffer, so footer text never reaches the output content; however footer
text can still be captured as the title (first `h1`, or `h2` while the
title is unset) or as the author (author-class paragraph) — see the
counterexample. -/
theorem footer_data_never_reaches_blocks (st : ArticleParser) (d : String)
    (hf : st.in_footer = true) (hne : pyStrip d ≠ "") :
    (handle_data st d).content_parts = st.content_parts ∧
      (handle_data st d).list_items = st.list_items ∧
      (handle_data st d).current_text = st.current_text := by
  simp only [handle_data]
  rw [if_neg hne]
  split_ifs <;> simp_all

/-- Witness for the amended C2 theorem at a concrete footer state. -/
theorem footer_data_never_reaches_blocks_witness :
    ({ initParser with in_footer := true, in_p := true } : ArticleParser).in_footer = true ∧
      pyStrip "secret" ≠ "" ∧
      (handle_data { initParser with in_footer := true, in_p := true } "secret").content_parts
        = ({ initParser with in_footer := true, in_p := true } : ArticleParser).content_parts :=
  ⟨by decide, by decide,
    (footer_data_never_reaches_blocks _ "secret" (by decide) (by decide)).1⟩

/-- C9 amended: the buffer is cleared (after a flush or a discard) at every
close of `p`, `h3`-`h6`, `li`, `dt` and `dd`; but it is not scoped per
element — text buffered while an outer block is open is included in the
block emitted when a nested block tag closes (see the counterexample), and
an `h2` close leaves the buffer untouched unless it flushes. -/
theorem block_close_clears_buffer (st : ArticleParser) (tag : String)
    (h : tag ∈ (["p", "h3", "h4", "h5", "h6", "li", "dt", "dd"] : List String)) :
    (handle_endtag st tag).current_text = "" := by
  simp only [List.mem_cons, List.not_mem_nil, or_false] at h
  rcases h with rfl | rfl | rfl | rfl | rfl | rfl | rfl | rfl <;> rfl

/-- Witness for the amended C9 theorem at a concrete state and tag. -/
theorem block_close_clears_buffer_witness :
    ("p" ∈ (["p", "h3", "h4", "h5", "h6", "li", "dt", "dd"] : List String)) ∧
      (handle_endtag { initParser with in_p := true, current_text := "junk" } "p").current_text
        = "" :=
  ⟨by decide, block_close_clears_buffer _ "p" (by decide)⟩

theorem handle_starttag_title (st : ArticleParser) (tag : String)
    (attrs : List (String × String)) : (handle_starttag st tag attrs).title = st.title := by
  unfold handle_starttag
  split <;> first | rfl | (dsimp only; split_ifs <;> rfl)

theorem handle_endtag_title (st : ArticleParser) (tag : String) :
    (handle_endtag st tag).title = st.title := by
  unfold handle_endtag
  split <;> first | rfl | (dsimp only; split_ifs <;> rfl)

theorem handle_data_title (st : ArticleParser) (d : String) (h : st.title ≠ "") :
    (handle_data st d).title = st.title := by
  simp only [handle_data]
  split_ifs <;> simp_all

theorem handle_event_title (st : ArticleParser) (e : HEvent) (h : st.title ≠ "") :
    (handle_event st e).title = st.title := by
  cases e with
  | start tag attrs => exact handle_starttag_title st tag attrs
  | stop tag => exact handle_endtag_title st tag
  | txt d => exact handle_data_title st d h

theorem feedEvents_title (evs : List HEvent) :
    ∀ st : ArticleParser, st.title ≠ "" → (feedEvents st evs).title = st.title := by
  induction evs with
  | nil => intro st h; rfl
  | cons e rest ih =>
    intro st h
    show (feedEvents (handle_event st e) rest).title = st.title
    have he := handle_event_title st e h
    rw [ih _ (by rw [he]; exact h), he]

/-- C3: in a document whose events reach the first `h1` with the title still
unset, the first non-blank text inside that `h1` becomes the record's title
as its trimmed form, it is set exactly once, and it is unaffected by any
events that follow (including later heading-1 and heading-1-like text); the
hypothesis on the entity-cleanup keeps the record title equal to the
heading's trimmed text. -/
theorem title_first_h1_wins (pre post : List HEvent) (attrs : List (String × String))
    (t fn raw : String)
    (hunset : (parseEvents pre).title = "")
    (hne : pyStrip t ≠ "")
    (hclean : (⟨replaceAmp (replaceGt (replaceLt (pyStrip t).data))⟩ : String) = pyStrip t) :
    (fetch_article fn
        (Except.ok (pre ++ HEvent.start "h1" attrs :: HEvent.txt t :: post, raw))).title
      = pyStrip t := by
  have hparse :
      (parseEvents (pre ++ HEvent.start "h1" attrs :: HEvent.txt t :: post)).title
        = pyStrip t := by
    unfold parseEvents feedEvents
    rw [List.foldl_append]
    show (feedEvents
      (handle_data (handle_starttag (parseEvents pre) "h1" attrs) t) post).title = _
    have h1 : handle_starttag (parseEvents pre) "h1" attrs
        = { parseEvents pre with in_h1 := true } := rfl
    rw [h1]
    have h2 : handle_data { parseEvents pre with in_h1 := true } t
        = { parseEvents pre with in_h1 := true, title := pyStrip t } := by
      simp only [handle_data]
      rw [if_neg hne, if_pos (by simp [hunset])]
    rw [h2]
    exact feedEvents_title post _ (by simpa using hne)
  have hrec : (fetch_article fn
      (Except.ok (pre ++ HEvent.start "h1" attrs :: HEvent.txt t :: post, raw))).title
      = ⟨replaceAmp (replaceGt (replaceLt
          (parseEvents (pre ++ HEvent.start "h1" attrs :: HEvent.txt t :: post)).title.data))⟩ :=
    rfl
  rw [hrec, hparse, hclean]

/-- Witness for the C3 theorem on a concrete one-heading document. -/
theorem title_first_h1_wins_witness :
    ((parseEvents ([] : List HEvent)).title = "" ∧ pyStrip "Foo" ≠ "") ∧
      (fetch_article "a.htm"
          (Except.ok (([] : List HEvent)
            ++ HEvent.start "h1" [] :: HEvent.txt "Foo" :: [HEvent.stop "h1"], ""))).title
        = pyStrip "Foo" :=
  ⟨⟨by decide, by decide⟩,
    title_first_h1_wins [] [HEvent.stop "h1"] [] "Foo" "a.htm" ""
      (by decide) (by decide) (by decide)⟩

theorem pyStrip_ne_iff (s : String) : pyStrip s ≠ "" ↔ stripChars s.data ≠ [] := by
  unfold pyStrip
  constructor
  · intro h hcon
    exact h (by rw [hcon])
  · intro h hcon
    apply h
    have := congrArg String.data hcon
    simpa using this

theorem exists_nonws_of_strip_ne {l : List Char} (h : stripChars l ≠ []) :
    ∃ c ∈ l, ¬ pyIsSpace c = true := by
  by_contra hcon
  push_neg at hcon
  exact h (stripChars_eq_nil_iff.mpr fun c hc => hcon c hc)

theorem pyStrip_idem_ne {x : String} (h : pyStrip x ≠ "") : pyStrip (pyStrip x) ≠ "" := by
  rw [pyStrip_ne_iff] at h ⊢
  show stripChars (stripChars x.data) ≠ []
  rw [stripChars_idem]
  exact h

theorem pyStrip_bold_ne (x : String) : pyStrip ("**" ++ x ++ "**") ≠ "" := by
  rw [pyStrip_ne_iff]
  have hmem : '*' ∈ ("**" ++ x ++ "**").data := by
    rw [data_append, data_append]
    exact List.mem_append_left _ (List.mem_cons_self '*' _)
  exact stripChars_ne_nil_of_mem hmem (by decide)

theorem pyStrip_dash_ne (x : String) : pyStrip ("- " ++ x) ≠ "" := by
  rw [pyStrip_ne_iff]
  have hmem : '-' ∈ ("- " ++ x).data := by
    rw [data_append]
    exact List.mem_append_left _ (List.mem_cons_self '-' _)
  exact stripChars_ne_nil_of_mem hmem (by decide)

theorem pyStrip_num_ne (n : Nat) (x : String) : pyStrip (toString n ++ ") " ++ x) ≠ "" := by
  rw [pyStrip_ne_iff]
  have hmem : ')' ∈ (toString n ++ ") " ++ x).data := by
    rw [data_append, data_append]
    exact List.mem_append_left _ (List.mem_append_right _ (List.mem_cons_self ')' _))
  exact stripChars_ne_nil_of_mem hmem (by decide)

theorem pyStrip_joinNl_ne {items : List String} (hne : items ≠ [])
    (h : ∀ i ∈ items, pyStrip i ≠ "") : pyStrip (joinNl items) ≠ "" := by
  rcases items with _ | ⟨i, rest⟩
  · exact absurd rfl hne
  have hi := h i (List.mem_cons_self i rest)
  rw [pyStrip_ne_iff] at hi
  rcases exists_nonws_of_strip_ne hi with ⟨c, hc, hcws⟩
  rw [pyStrip_ne_iff]
  refine stripChars_ne_nil_of_mem ?_ hcws
  rcases rest with _ | ⟨j, rest2⟩
  · exact hc
  · show c ∈ (i ++ "\n" ++ joinNl (j :: rest2)).data
    rw [data_append, data_append]
    exact List.mem_append_left _ (List.mem_append_left _ hc)

theorem forall_append_one {P : String → Prop} {xs : List String} {v : String}
    (hxs : ∀ p ∈ xs, P p) (hv : P v) : ∀ p ∈ xs ++ [v], P p := by
  intro p hp
  rcases List.mem_append.mp hp with hmem | hmem
  · exact hxs p hmem
  · rw [List.mem_singleton.mp hmem]
    exact hv

theorem handle_data_parts (st : ArticleParser) (d : String) :
    (handle_data st d).content_parts = st.content_parts ∧
      (handle_data st d).list_items = st.list_items := by
  simp only [handle_data]
  split_ifs <;> exact ⟨rfl, rfl⟩

theorem handle_starttag_parts_ok (st : ArticleParser) (tag : String)
    (attrs : List (String × String)) (h : PartsOk st) :
    PartsOk (handle_starttag st tag attrs) := by
  unfold handle_starttag
  split
  all_goals first
    | exact h
    | exact ⟨h.1, fun p hp => absurd hp (List.not_mem_nil p)⟩
    | (try dsimp only
       split_ifs <;>
         first
           | exact h
           | exact ⟨forall_append_one h.1 (pyStrip_bold_ne _), h.2⟩
           | exact ⟨forall_append_one h.1 (pyStrip_idem_ne (by simp_all)), h.2⟩)

theorem handle_endtag_parts_ok (st : ArticleParser) (tag : String) (h : PartsOk st) :
    PartsOk (handle_endtag st tag) := by
  unfold handle_endtag
  split
  all_goals first
    | exact h
    | exact ⟨h.1, fun p hp => absurd hp (List.not_mem_nil p)⟩
    | (try dsimp only
       split_ifs <;>
         first
           | exact h
           | exact ⟨h.1, fun p hp => absurd hp (List.not_mem_nil p)⟩
           | exact ⟨forall_append_one h.1 (pyStrip_bold_ne _), h.2⟩
           | exact ⟨forall_append_one h.1 (pyStrip_idem_ne (by simp_all)), h.2⟩
           | exact ⟨h.1, forall_append_one h.2 (pyStrip_num_ne _ _)⟩
           | exact ⟨h.1, forall_append_one h.2 (pyStrip_dash_ne _)⟩
           | exact ⟨forall_append_one h.1
               (pyStrip_joinNl_ne (by simp_all) h.2),
               fun p hp => absurd hp (List.not_mem_nil p)⟩)

theorem handle_event_parts_ok (st : ArticleParser) (e : HEvent) (h : PartsOk st) :
    PartsOk (handle_event st e) := by
  cases e with
  | start tag attrs => exact handle_starttag_parts_ok st tag attrs h
  | stop tag => exact handle_endtag_parts_ok st tag h
  | txt d =>
    have hp := handle_data_parts st d
    show PartsOk (handle_data st d)
    refine ⟨?_, ?_⟩
    · rw [hp.1]
      exact h.1
    · rw [hp.2]
      exact h.2

theorem feedEvents_parts_ok (evs : List HEvent) :
    ∀ st : ArticleParser, PartsOk st → PartsOk (feedEvents st evs) := by
  induction evs with
  | nil => intro st h; exact h
  | cons e rest ih =>
    intro st h
    exact ih (handle_event st e) (handle_event_parts_ok st e h)

/-- C10 amended: every element appended to the converter's content-block
list is non-empty after stripping (all flush sites guard on a stripped
buffer or a non-empty item list); but the conclusion about the joined
content string fails — a block may internally carry newline runs, so the
content can still contain a whitespace-only segment between double-newline
separators (see the counterexample). -/
theorem content_parts_strip_nonempty (evs : List HEvent) :
    ∀ part ∈ (parseEvents evs).content_parts, pyStrip part ≠ "" :=
  (feedEvents_parts_ok evs initParser
    ⟨fun p hp => absurd hp (List.not_mem_nil p),
     fun p hp => absurd hp (List.not_mem_nil p)⟩).1

/-- Witness for the amended C10 theorem at a concrete block. -/
theorem content_parts_strip_nonempty_witness :
    "Hello." ∈ (parseEvents minimalDocEvents).content_parts ∧ pyStrip "Hello." ≠ "" :=
  ⟨by decide, content_parts_strip_nonempty minimalDocEvents "Hello." (by decide)⟩

theorem handle_data_li (st : ArticleParser) (t : String)
    (h1 : st.in_h1 = false) (h2 : st.in_h2 = false) (hap : st.in_author_p = false)
    (hf : st.in_footer = false) (hli : st.in_li = true) (hct : st.current_text = "")
    (ht : pyStrip t ≠ "") :
    handle_data st t = { st with current_text := t } := by
  simp only [handle_data]
  rw [if_neg ht, if_neg (by simp [h1]), if_neg (by simp [h2]), if_neg (by simp [hap]),
    if_pos (by simp [hli, hf]), hct]
  rfl

theorem handle_endtag_li_ol (st : ArticleParser)
    (hol : st.in_ol = true) (hf : st.in_footer = false)
    (hne : pyStrip st.current_text ≠ "") :
    handle_endtag st "li" =
      { st with in_li := false, current_text := "", ol_counter := st.ol_counter + 1,
                list_items := st.list_items
                  ++ [toString (st.ol_counter + 1) ++ ") " ++ pyStrip st.current_text] } := by
  show (let st1 : ArticleParser := { st with in_li := false }
        let st2 := if pyStrip st1.current_text ≠ "" && !st1.in_footer then
            if st1.in_ol then
              { st1 with ol_counter := st1.ol_counter + 1,
                         list_items := st1.list_items
                           ++ [toString (st1.ol_counter + 1) ++ ") " ++ pyStrip st1.current_text] }
            else
              { st1 with list_items := st1.list_items ++ ["- " ++ pyStrip st1.current_text] }
          else st1
        { st2 with current_text := "" }) = _
  dsimp only
  rw [if_pos (by simp [hne, hf]), if_pos (by simpa using hol)]

theorem handle_endtag_li_ul (st : ArticleParser)
    (hol : st.in_ol = false) (hf : st.in_footer = false)
    (hne : pyStrip st.current_text ≠ "") :
    handle_endtag st "li" =
      { st with in_li := false, current_text := "",
                list_items := st.list_items ++ ["- " ++ pyStrip st.current_text] } := by
  show (let st1 : ArticleParser := { st with in_li := false }
        let st2 := if pyStrip st1.current_text ≠ "" && !st1.in_footer then
            if st1.in_ol then
              { st1 with ol_counter := st1.ol_counter + 1,
                         list_items := st1.list_items
                           ++ [toString (st1.ol_counter + 1) ++ ") " ++ pyStrip st1.current_text] }
            else
              { st1 with list_items := st1.list_items ++ ["- " ++ pyStrip st1.current_text] }
          else st1
        { st2 with current_text := "" }) = _
  dsimp only
  rw [if_pos (by simp [hne, hf]), if_neg (by simp [hol])]

theorem handle_endtag_ol_close (st : ArticleParser) (hitems : st.list_items ≠ []) :
    handle_endtag st "ol" =
      { st with in_ol := false, content_parts := st.content_parts ++ [joinNl st.list_items],
                list_items := [], ol_counter := 0 } := by
  show (let st1 : ArticleParser := { st with in_ol := false }
        let st2 := if !st1.list_items.isEmpty then
            { st1 with content_parts := st1.content_parts ++ [joinNl st1.list_items] }
          else st1
        { st2 with list_items := [], ol_counter := 0 }) = _
  dsimp only
  rw [if_pos (by simpa [List.isEmpty_iff] using hitems)]

theorem handle_endtag_ul_close (st : ArticleParser) (hitems : st.list_items ≠ []) :
    handle_endtag st "ul" =
      { st with in_ul := false, content_parts := st.content_parts ++ [joinNl st.list_items],
                list_items := [] } := by
  show (let st1 : ArticleParser := { st with in_ul := false }
        let st2 := if !st1.list_items.isEmpty then
            { st1 with content_parts := st1.content_parts ++ [joinNl st1.list_items] }
          else st1
        { st2 with list_items := [] }) = _
  dsimp only
  rw [if_pos (by simpa [List.isEmpty_iff] using hitems)]

theorem olItems_ne_nil (k : Nat) (ts : List String) (h : ts ≠ []) :
    olItems k ts ≠ [] := by
  cases ts with
  | nil => exact absurd rfl h
  | cons t rest => simp [olItems]

theorem ulItems_ne_nil (ts : List String) (h : ts ≠ []) : ulItems ts ≠ [] := by
  cases ts with
  | nil => exact absurd rfl h
  | cons t rest => simp [ulItems]

theorem itemsEvents_fold_ol (ts : List String) :
    ∀ st : ArticleParser, st.in_h1 = false → st.in_h2 = false →
      st.in_author_p = false → st.in_footer = false → st.in_ol = true →
      (∀ t ∈ ts, pyStrip t ≠ "") →
      (feedEvents st (itemsEvents ts)).content_parts = st.content_parts ∧
        (feedEvents st (itemsEvents ts)).list_items
          = st.list_items ++ olItems st.ol_counter ts := by
  induction ts with
  | nil =>
    intro st h1 h2 hap hf hol hts
    refine ⟨rfl, ?_⟩
    rw [olItems, List.append_nil]
    rfl
  | cons t ts ih =>
    intro st h1 h2 hap hf hol hts
    have ht : pyStrip t ≠ "" := hts t (List.mem_cons_self t ts)
    have hts2 : ∀ x ∈ ts, pyStrip x ≠ "" := fun x hx => hts x (List.mem_cons_of_mem t hx)
    have estep : feedEvents st (itemsEvents (t :: ts))
        = feedEvents (handle_endtag (handle_data (handle_starttag st "li" []) t) "li")
            (itemsEvents ts) := rfl
    rw [estep,
      show handle_starttag st "li" [] = { st with in_li := true, current_text := "" } from rfl,
      show handle_data { st with in_li := true, current_text := "" } t
          = { st with in_li := true, current_text := t }
        from handle_data_li _ t h1 h2 hap hf rfl rfl ht,
      show handle_endtag { st with in_li := true, current_text := t } "li"
          = { st with in_li := false, current_text := "", ol_counter := st.ol_counter + 1,
                      list_items := st.list_items
                        ++ [toString (st.ol_counter + 1) ++ ") " ++ pyStrip t] }
        from handle_endtag_li_ol _ hol hf ht]
    obtain ⟨ihc, ihl⟩ := ih
      { st with in_li := false, current_text := "", ol_counter := st.ol_counter + 1,
                list_items := st.list_items
                  ++ [toString (st.ol_counter + 1) ++ ") " ++ pyStrip t] }
      h1 h2 hap hf hol hts2
    refine ⟨by rw [ihc], ?_⟩
    rw [ihl]
    show (st.list_items ++ [toString (st.ol_counter + 1) ++ ") " ++ pyStrip t])
        ++ olItems (st.ol_counter + 1) ts = _
    rw [olItems, List.append_assoc]
    rfl

theorem itemsEvents_fold_ul (ts : List String) :
    ∀ st : ArticleParser, st.in_h1 = false → st.in_h2 = false →
      st.in_author_p = false → st.in_footer = false → st.in_ol = false →
      (∀ t ∈ ts, pyStrip t ≠ "") →
      (feedEvents st (itemsEvents ts)).content_parts = st.content_parts ∧
        (feedEvents st (itemsEvents ts)).list_items
          = st.list_items ++ ulItems ts := by
  induction ts with
  | nil =>
    intro st h1 h2 hap hf hol hts
    refine ⟨rfl, ?_⟩
    rw [show ulItems [] = [] from rfl, List.append_nil]
    rfl
  | cons t ts ih =>
    intro st h1 h2 hap hf hol hts
    have ht : pyStrip t ≠ "" := hts t (List.mem_cons_self t ts)
    have hts2 : ∀ x ∈ ts, pyStrip x ≠ "" := fun x hx => hts x (List.mem_cons_of_mem t hx)
    have estep : feedEvents st (itemsEvents (t :: ts))
        = feedEvents (handle_endtag (handle_data (handle_starttag st "li" []) t) "li")
            (itemsEvents ts) := rfl
    rw [estep,
      show handle_starttag st "li" [] = { st with in_li := true, current_text := "" } from rfl,
      show handle_data { st with in_li := true, current_text := "" } t
          = { st with in_li := true, current_text := t }
        from handle_data_li _ t h1 h2 hap hf rfl rfl ht,
      show handle_endtag { st with in_li := true, current_text := t } "li"
          = { st with in_li := false, current_text := "",
                      list_items := st.list_items ++ ["- " ++ pyStrip t] }
        from handle_endtag_li_ul _ hol hf ht]
    obtain ⟨ihc, ihl⟩ := ih
      { st with in_li := false, current_text := "",
                list_items := st.list_items ++ ["- " ++ pyStrip t] }
      h1 h2 hap hf hol hts2
    refine ⟨by rw [ihc], ?_⟩
    rw [ihl]
    show (st.list_items ++ ["- " ++ pyStrip t]) ++ ulItems ts = _
    rw [show ulItems (t :: ts) = ("- " ++ pyStrip t) :: ulItems ts from rfl,
      List.append_assoc]
    rfl

/-- C4: from any state outside a footer and outside heading or author
capture, feeding a whole ordered list whose items close with non-blank
trimmed text emits exactly one block at the closing tag: the newline-join of
the items prefixed with a 1-based counter formatted like `1) ` that is reset
when the list opens and incremented per item; an unordered list (fed while
no ordered list is open) emits the newline-join of the items prefixed with
`- `. -/
theorem list_close_emits_single_block (ts : List String) (st : ArticleParser)
    (h1 : st.in_h1 = false) (h2 : st.in_h2 = false) (hap : st.in_author_p = false)
    (hf : st.in_footer = false) (hts : ts ≠ []) (hne : ∀ t ∈ ts, pyStrip t ≠ "") :
    (feedEvents st (olEvents ts)).content_parts
        = st.content_parts ++ [joinNl (olItems 0 ts)] ∧
      (st.in_ol = false →
        (feedEvents st (ulEvents ts)).content_parts
          = st.content_parts ++ [joinNl (ulItems ts)]) := by
  constructor
  · have e0 : feedEvents st (olEvents ts)
        = handle_endtag
            (feedEvents { st with in_ol := true, ol_counter := 0, list_items := [] }
              (itemsEvents ts)) "ol" := by
      show feedEvents st (HEvent.start "ol" [] :: (itemsEvents ts ++ [HEvent.stop "ol"])) = _
      rw [show feedEvents st (HEvent.start "ol" [] :: (itemsEvents ts ++ [HEvent.stop "ol"]))
          = feedEvents (handle_starttag st "ol" []) (itemsEvents ts ++ [HEvent.stop "ol"])
        from rfl]
      rw [show handle_starttag st "ol" []
          = { st with in_ol := true, ol_counter := 0, list_items := [] } from rfl]
      unfold feedEvents
      rw [List.foldl_append]
      rfl
    rw [e0]
    obtain ⟨ihc, ihl⟩ := itemsEvents_fold_ol ts
      { st with in_ol := true, ol_counter := 0, list_items := [] } h1 h2 hap hf rfl hne
    have hitems :
        (feedEvents { st with in_ol := true, ol_counter := 0, list_items := [] }
          (itemsEvents ts)).list_items ≠ [] := by
      rw [ihl]
      simpa using olItems_ne_nil 0 ts hts
    rw [handle_endtag_ol_close _ hitems]
    show (feedEvents { st with in_ol := true, ol_counter := 0, list_items := [] }
        (itemsEvents ts)).content_parts
      ++ [joinNl (feedEvents { st with in_ol := true, ol_counter := 0, list_items := [] }
        (itemsEvents ts)).list_items] = _
    rw [ihc, ihl]
    rfl
  · intro hol
    have e0 : feedEvents st (ulEvents ts)
        = handle_endtag
            (feedEvents { st with in_ul := true, list_items := [] } (itemsEvents ts)) "ul" := by
      show feedEvents st (HEvent.start "ul" [] :: (itemsEvents ts ++ [HEvent.stop "ul"])) = _
      rw [show feedEvents st (HEvent.start "ul" [] :: (itemsEvents ts ++ [HEvent.stop "ul"]))
          = feedEvents (handle_starttag st "ul" []) (itemsEvents ts ++ [HEvent.stop "ul"])
        from rfl]
      rw [show handle_starttag st "ul" []
          = { st with in_ul := true, list_items := [] } from rfl]
      unfold feedEvents
      rw [List.foldl_append]
      rfl
    rw [e0]
    obtain ⟨ihc, ihl⟩ := itemsEvents_fold_ul ts
      { st with in_ul := true, list_items := [] } h1 h2 hap hf hol hne
    have hitems :
        (feedEvents { st with in_ul := true, list_items := [] } (itemsEvents ts)).list_items
          ≠ [] := by
      rw [ihl]
      simpa using ulItems_ne_nil ts hts
    rw [handle_endtag_ul_close _ hitems]
    show (feedEvents { st with in_ul := true, list_items := [] } (itemsEvents ts)).content_parts
      ++ [joinNl (feedEvents { st with in_ul := true, list_items := [] }
        (itemsEvents ts)).list_items] = _
    rw [ihc, ihl]
    rfl

/-- Witness for the C4 theorem on the spec's two example lists. -/
theorem list_close_emits_single_block_witness :
    (parseEvents (olEvents ["first", "second", "third"])).content_parts
        = ["1) first\n2) second\n3) third"] ∧
      (parseEvents (ulEvents ["a", "b"])).content_parts = ["- a\n- b"] := by
  have hol := (list_close_emits_single_block ["first", "second", "third"] initParser
    rfl rfl rfl rfl (by decide) (by decide)).1
  have hul := (list_close_emits_single_block ["a", "b"] initParser
    rfl rfl rfl rfl (by decide) (by decide)).2 rfl
  constructor
  · rw [show parseEvents (olEvents ["first", "second", "third"])
        = feedEvents initParser (olEvents ["first", "second", "third"]) from rfl, hol]
    decide
  · rw [show parseEvents (ulEvents ["a", "b"])
        = feedEvents initParser (ulEvents ["a", "b"]) from rfl, hul]
    decide
